import Mathlib

/-!
Verification development for the `liminal_backrooms` conversation system.

The definitions below are a shallow embedding of the Python source:
* `main.py` — branch creation (`rabbithole_callback`, `fork_callback`) and
  per-turn prompt assembly (`ai_turn`), including branch detection and the
  trailing-role fix-up;
* `shared_utils.py` — response normalisation (`format_reasoning_response`,
  `normalize_response`, `build_error_response`) and provider dispatch
  (`PROVIDER_REGISTRY`, `invoke_provider`).

Python strings are modelled as Lean `String`s with explicit list-of-character
implementations of the `str` operations the source uses (`strip`, `lower`,
`in`, `find`, `split`, `startswith`, `splitlines`).  The character predicates
cover the ASCII fragment exercised by the code.
-/

set_option autoImplicit false

namespace LiminalBackrooms

/-! ### Python string primitives -/

/-- Characters removed by Python `str.strip()` (ASCII whitespace). -/
def isPySpace (c : Char) : Bool :=
  c = ' ' || c = '\t' || c = '\n' || c = '\x0d' || c = '\x0b' || c = '\x0c'

/-- `str.strip()` on a character list: drop whitespace from both ends. -/
def stripL (cs : List Char) : List Char :=
  ((cs.dropWhile isPySpace).reverse.dropWhile isPySpace).reverse

/-- `str.strip()`. -/
def pyStrip (s : String) : String := ⟨stripL s.data⟩

/-- `str.lower()` (ASCII). -/
def pyLower (s : String) : String := ⟨s.data.map Char.toLower⟩

/-- Substring containment, Python `needle in hay` on character lists. -/
def containsL (needle : List Char) : List Char → Bool
  | [] => needle.isEmpty
  | c :: rest => needle.isPrefixOf (c :: rest) || containsL needle rest

/-- Substring containment, Python `needle in hay`. -/
def containsSub (hay needle : String) : Bool := containsL needle.data hay.data

/-- Python `hay.find(needle)`: index of the first occurrence (`none` for `-1`). -/
def findL (needle : List Char) : List Char → Option Nat
  | [] => if needle.isEmpty then some 0 else none
  | c :: rest =>
    if needle.isPrefixOf (c :: rest) then some 0
    else (findL needle rest).map (· + 1)

/-- Python `s.startswith(pre)`. -/
def pyStartsWith (s pre : String) : Bool := pre.data.isPrefixOf s.data

/-- Python `s.split(sep)` for a one-character separator. -/
def splitOnCharL (sep : Char) : List Char → List (List Char)
  | [] => [[]]
  | c :: rest =>
    let r := splitOnCharL sep rest
    if c = sep then [] :: r
    else
      match r with
      | h :: t => (c :: h) :: t
      | [] => [[c]]

/-! ### Message data model (`main.py` conversation dicts)

A transcript entry is a Python dict with keys `role`, `content`, and the
optional keys `ai_name`, `hidden` and `_type` read by the modelled code.
Presentation-only keys (`model`, `final_content`, `reasoning`, `display`,
`generated_image_path`) never influence the modelled control flow. -/

structure Msg where
  role : String
  content : String
  ai_name : Option String := none
  hidden : Bool := false
  mtype : Option String := none
deriving DecidableEq, Repr

/- `content` is modelled as text: image messages, whose content is a list of
parts, are outside the modelled fragment (the filtering code would raise on
them before any claim-relevant behaviour). -/

/-- Whether a message dict carries `_type == "branch_indicator"`. -/
def isBranchIndicator (m : Msg) : Bool := m.mtype = some "branch_indicator"

/-- The rabbithole branch-indicator message appended by
`rabbithole_callback` (main.py:898-903).  The leading characters reproduce
the source file's literal prefix bytes. -/
def rabbitholeIndicator (selected_text : String) : Msg :=
  { role := "system",
    content := "üêá Rabbitholing down: \"" ++ selected_text ++ "\"",
    mtype := some "branch_indicator" }

/-- The fork branch-indicator message appended by `fork_callback`
(main.py:1004-1009). -/
def forkIndicator (selected_text : String) : Msg :=
  { role := "system",
    content := "üç¥ Forking off: \"" ++ selected_text ++ "\"",
    mtype := some "branch_indicator" }

/-! ### BranchTree: rabbithole and fork creation -/

/-- Transcript construction of `ConversationManager.rabbithole_callback`
(main.py:891-903): copy every parent message that is not a branch indicator,
then append the rabbithole indicator. -/
def rabbitholeBranchConversation (parent : List Msg) (selected_text : String) : List Msg :=
  (parent.filter (fun m => !isBranchIndicator m)) ++ [rabbitholeIndicator selected_text]

/-- First pass of `fork_callback` (main.py:956-960): the first message with
role `user` or `assistant` whose content contains the selected text. -/
def isTruncMatch (selected_text : String) (m : Msg) : Bool :=
  (m.role = "user" || m.role = "assistant") && containsSub m.content selected_text

/-- Enumerated search loop for the truncation point. -/
def findTruncateIdxAux (selected_text : String) : Nat → List Msg → Option Nat
  | _, [] => none
  | i, m :: rest =>
    if isTruncMatch selected_text m then some i
    else findTruncateIdxAux selected_text (i + 1) rest

def findTruncateIdx (parent : List Msg) (selected_text : String) : Option Nat :=
  findTruncateIdxAux selected_text 0 parent

/-- Content truncation at the selected text (main.py:985-995):
`content[:pos + len(selected_text)]` when the text occurs, otherwise the
whole content. -/
def truncAt (content selected_text : String) : String :=
  match findL selected_text.data content.data with
  | some p => ⟨content.data.take (p + selected_text.data.length)⟩
  | none => content

/-- Second pass of `fork_callback` (main.py:973-1001): walk the parent with
its index, always keeping non-indicator system messages, keeping other
messages up to the truncation index, and truncating the match itself. -/
def forkKeepLoop (selected_text : String) (t : Nat) : Nat → List Msg → List Msg
  | _, [] => []
  | i, m :: rest =>
    if m.role = "system" && !isBranchIndicator m then
      m :: forkKeepLoop selected_text t (i + 1) rest
    else if i ≤ t then
      (if i = t then { m with content := truncAt m.content selected_text } else m)
        :: forkKeepLoop selected_text t (i + 1) rest
    else
      forkKeepLoop selected_text t (i + 1) rest

/-- Transcript construction of `ConversationManager.fork_callback`
(main.py:951-1009), including the full-copy fallback when the selected text
is not found in any single message. -/
def forkBranchConversation (parent : List Msg) (selected_text : String) : List Msg :=
  match findTruncateIdx parent selected_text with
  | none => (parent.filter (fun m => !isBranchIndicator m)) ++ [forkIndicator selected_text]
  | some t => forkKeepLoop selected_text t 0 parent ++ [forkIndicator selected_text]

/-! ### TurnScheduler / PromptAssembler: `ai_turn` (main.py:102-376)

`ai_turn` receives the stored conversation and the speaking AI's system
prompt and builds the outgoing message list: branch detection, branch
override computation (discarded at main.py:201), filtering with dedup, role
assignment, and the trailing-role fix-up. -/

/-- An outgoing provider message: a dict with only `role` and `content`. -/
structure SimpleMsg where
  role : String
  content : String
deriving DecidableEq, Repr

/-- Branch-text extraction (main.py:166,170):
`content.split('"')[1] if '"' in content else ""`. -/
def branchTextOf (content : String) : String :=
  if containsSub content "\"" then
    match (splitOnCharL '"' content.data)[1]? with
    | some l => ⟨l⟩
    | none => ""
  else ""

/-- Accumulated branch-detection state of the scan at main.py:157-171.
The flags are set, never reset, and `latest_idx`/`branch_text` reflect the
latest matching marker. -/
structure BranchInfo where
  is_rabbithole : Bool := false
  is_fork : Bool := false
  branch_text : String := ""
  found : Bool := false
  latest_idx : Nat := 0
deriving DecidableEq, Repr

def detectBranchAux : Nat → BranchInfo → List Msg → BranchInfo
  | _, st, [] => st
  | i, st, m :: rest =>
    let st' :=
      if isBranchIndicator m then
        let st1 := { st with found := true, latest_idx := i }
        if containsSub m.content "Rabbitholing down:" then
          { st1 with is_rabbithole := true, branch_text := branchTextOf m.content }
        else if containsSub m.content "Forking off:" then
          { st1 with is_fork := true, branch_text := branchTextOf m.content }
        else st1
      else st
    detectBranchAux (i + 1) st' rest

def detectBranch (conv : List Msg) : BranchInfo :=
  detectBranchAux 0 {} conv

/-- Count of assistant-role messages strictly after the latest branch marker
(main.py:173-179); zero when no marker was found. -/
def countAssistantAfter (latest : Nat) : Nat → List Msg → Nat
  | _, [] => 0
  | i, m :: rest =>
    (if latest < i ∧ m.role = "assistant" then 1 else 0)
      + countAssistantAfter latest (i + 1) rest

def aiResponseCount (conv : List Msg) : Nat :=
  let bi := detectBranch conv
  if bi.found then countAssistantAfter bi.latest_idx 0 conv else 0

/-- The branch-specific system-prompt override computed at main.py:181-198:
rabbithole branches within their first two post-marker responses get the
anchor text wrapped for emphasis, fork branches get a continuation
instruction for their first post-marker response. -/
def overrideSystemPrompt (conv : List Msg) (system_prompt : String) : String :=
  let bi := detectBranch conv
  let cnt := aiResponseCount conv
  if bi.is_rabbithole ∧ cnt < 2 then "'" ++ bi.branch_text ++ "'!!!"
  else if bi.is_fork ∧ cnt = 0 then
    "The conversation forks from'" ++ bi.branch_text ++ "'. Continue naturally from this point."
  else system_prompt

/-- The system prompt actually placed in the outgoing messages and the
provider payload.  main.py:124 captures `enhanced_system_prompt =
system_prompt` before the override is computed and main.py:201 assigns
`system_prompt = enhanced_system_prompt`, so the override of
`overrideSystemPrompt` never reaches the payload. -/
def aiTurnSystemPrompt (conv : List Msg) (system_prompt : String) : String :=
  let enhanced_system_prompt := system_prompt
  let _overridden := overrideSystemPrompt conv system_prompt
  enhanced_system_prompt

/-- One step of the filtering loop at main.py:212-243: skip hidden
"connecting" placeholders, blank messages, system messages, and messages
whose exact content was already emitted. -/
def filterStep (acc : List Msg) (m : Msg) : List Msg :=
  if m.hidden && containsSub (pyLower m.content) "connect" then acc
  else if pyStrip m.content = "" then acc
  else if m.role = "system" then acc
  else if acc.any (fun e => e.content = m.content) then acc
  else acc ++ [m]

def filterConversation (conv : List Msg) : List Msg := conv.foldl filterStep []

/-- Role assignment at main.py:246-256: messages from the speaking AI become
`assistant`, everything else (the human and the other AI) becomes `user`. -/
def roleFor (ai_name : String) (m : Msg) : String :=
  if m.ai_name = some ai_name then "assistant" else "user"

def assembledHistory (ai_name : String) (conv : List Msg) : List SimpleMsg :=
  (filterConversation conv).map (fun m => ⟨roleFor ai_name m, m.content⟩)

/-- Content of the synthetic trailing user message (main.py:268-300).  Every
branch of the source appends a dict with `role: "user"`; for the standard
case it re-sends the most recent filtered message not from the speaking
AI. -/
def trailingUserContent (ai_name : String) (conv : List Msg) : String :=
  let bi := detectBranch conv
  if bi.is_rabbithole ∧ ¬ bi.branch_text = "" then
    "Please explore the concept of '" ++ bi.branch_text
      ++ "' in depth. What are the most interesting aspects or connections related to this concept?"
  else if bi.is_fork ∧ ¬ bi.branch_text = "" then
    "Continue on naturally from the point about '" ++ bi.branch_text
      ++ "' without including this text."
  else
    match (filterConversation conv).reverse.find? (fun m => !(m.ai_name = some ai_name)) with
    | some other =>
        if ¬ other.content = "" then other.content else "Let's continue our conversation."
    | none => "Let's continue our conversation."

/-- The assembled outgoing message list of `ai_turn` (main.py:205-300): a
leading system message, the filtered re-roled history, and — when the list
would otherwise end on the speaking AI's own turn — a synthetic trailing
user message. -/
def assembleBase (ai_name : String) (conv : List Msg) (system_prompt : String) :
    List SimpleMsg :=
  ⟨"system", aiTurnSystemPrompt conv system_prompt⟩ :: assembledHistory ai_name conv

def assembleMessages (ai_name : String) (conv : List Msg) (system_prompt : String) :
    List SimpleMsg :=
  if 1 < (assembleBase ai_name conv system_prompt).length
      ∧ (assembleBase ai_name conv system_prompt).getLast?.map SimpleMsg.role
          = some "assistant" then
    assembleBase ai_name conv system_prompt ++ [⟨"user", trailingUserContent ai_name conv⟩]
  else assembleBase ai_name conv system_prompt

/-- Concrete conversation refuting the full-output dedup claim: the
transcript ends on the speaking AI's own turn, so `ai_turn` re-appends the
other AI's latest message as the synthetic trailing user message,
duplicating its content. -/
def dedupCexConv : List Msg :=
  [⟨"assistant", "hi", some "AI-2", false, none⟩,
   ⟨"assistant", "yo", some "AI-1", false, none⟩]

/-- Conversation of a freshly created fork branch: a parent assistant
message, the fork indicator, and the hidden "..." instruction appended by
`process_branch_input_with_hidden_instruction`. -/
def forkBugConv : List Msg :=
  [⟨"assistant", "we talked about x earlier", some "AI-2", false, none⟩,
   forkIndicator "x",
   ⟨"user", "...", none, true, none⟩]

/-- Prompt-pair selection of `process_branch_input` (main.py:607-625):
rabbithole branches with fewer than two assistant messages anywhere in the
branch conversation get the long exploration prompt for both speakers;
every other branch — including every fork branch — gets the configured
persona prompts. -/
def processBranchPrompts (branch_type selected_text ai1_prompt ai2_prompt : String)
    (conversation : List Msg) : String × String :=
  let cnt := conversation.countP (fun m => m.role = "assistant")
  if pyLower branch_type = "rabbithole" ∧ cnt < 2 then
    let p := "You are interacting with another AI. IMPORTANT: Focus this response specifically on exploring and expanding upon the concept of '"
      ++ selected_text
      ++ "' in depth. Discuss the most interesting aspects or connections related to this concept while maintaining the tone of the conversation. No numbered lists or headings."
    (p, p)
  else (ai1_prompt, ai2_prompt)

/-! ### ResponseNormalizer: `format_reasoning_response` (shared_utils.py:77-169)

The reasoning extraction uses `re.findall` / `re.sub` with the pattern
`<(think|thinking)>(.*?)</\1>` under DOTALL and IGNORECASE.  The scanner
below mirrors the engine: leftmost open tag (`<think>` only matches when
`>` directly follows `think`, otherwise `<thinking>` is tried), lazy inner
text up to the nearest matching close tag, continuation after the close
tag, and a one-character advance when an open tag has no close tag. -/

/-- Case-insensitive literal match of a lowercase pattern at the head,
returning the remaining characters. -/
def matchCI : List Char → List Char → Option (List Char)
  | [], cs => some cs
  | _ :: _, [] => none
  | p :: ps, c :: cs => if c.toLower = p then matchCI ps cs else none

/-- Open-tag match at the head: `<think>` first, then `<thinking>`. -/
def matchOpenTag (cs : List Char) : Option (List Char × List Char) :=
  match matchCI "<think>".data cs with
  | some rest => some ("think".data, rest)
  | none =>
    match matchCI "<thinking>".data cs with
    | some rest => some ("thinking".data, rest)
    | none => none

/-- Lazy search for the matching close tag `</tag>`: the inner text up to
the nearest close tag and the characters after it. -/
def findCloseTag (tag : List Char) : List Char → Option (List Char × List Char)
  | [] => none
  | c :: cs =>
    match matchCI ('<' :: '/' :: (tag ++ ['>'])) (c :: cs) with
    | some rest => some ([], rest)
    | none =>
      match findCloseTag tag cs with
      | some (inner, rest) => some (c :: inner, rest)
      | none => none

/-- Simultaneous model of `re.findall` and `re.sub` for the think-tag
pattern: the matched inner blocks in order, and the content with the
matched spans removed.  The `fuel` argument only bounds the recursion
depth; every step strictly shrinks the character list, so any fuel of at
least the list's length (as supplied by `scanThinkTags`) is never
exhausted. -/
def scanThinkTagsFuel : Nat → List Char → List (List Char) × List Char
  | 0, _ => ([], [])
  | _, [] => ([], [])
  | fuel + 1, c :: rest0 =>
    match matchOpenTag (c :: rest0) with
    | some (tag, afterOpen) =>
      match findCloseTag tag afterOpen with
      | some (inner, after) =>
        let r := scanThinkTagsFuel fuel after
        (inner :: r.1, r.2)
      | none =>
        let r := scanThinkTagsFuel fuel rest0
        (r.1, c :: r.2)
    | none =>
      let r := scanThinkTagsFuel fuel rest0
      (r.1, c :: r.2)

def scanThinkTags (cs : List Char) : List (List Char) × List Char :=
  scanThinkTagsFuel cs.length cs

/-- Line-break characters recognised by Python `str.splitlines` (ASCII). -/
def isLineBreak (c : Char) : Bool :=
  c = '\n' || c = '\x0d' || c = '\x0b' || c = '\x0c'

/-- Python `str.splitlines` (ASCII terminators, `\r\n` as one break); the
fuel never runs out when it is at least the list length, as each step
consumes at least one character. -/
def splitLinesFuel : Nat → List Char → List (List Char)
  | 0, _ => []
  | _, [] => []
  | fuel + 1, c :: cs' =>
    let line := (c :: cs').takeWhile (fun ch => !isLineBreak ch)
    match (c :: cs').drop line.length with
    | [] => [line]
    | r :: rest' =>
      if r = '\x0d' ∧ rest'.head? = some '\n' then line :: splitLinesFuel fuel rest'.tail
      else line :: splitLinesFuel fuel rest'

def splitLines (cs : List Char) : List (List Char) := splitLinesFuel cs.length cs

/-! The terminal-answer pattern `(?:final\s+answer|answer)\s*[:\-]\s*(.+)`
(IGNORECASE, no DOTALL, applied with `.search`): leftmost match, `final
\s+answer` tried before `answer` at each position, greedy `\s*` before the
separator, and backtracking of the `\s*` after the separator so that the
`(.+)` group still gets at least one non-newline character. -/

def wsPrefixLen (cs : List Char) : Nat := (cs.takeWhile isPySpace).length

/-- The `(.+)` group with backtracking over the preceding `\s*`: the
largest offset `k` within the whitespace prefix whose character is not a
newline starts the greedy non-newline run. -/
def groupFromOffset (rest : List Char) : Nat → Option (List Char)
  | 0 =>
    match rest[0]? with
    | some ch => if ch = '\n' then none else some (rest.takeWhile (fun c => !(c = '\n')))
    | none => none
  | k + 1 =>
    match rest[k + 1]? with
    | some ch =>
      if ch = '\n' then groupFromOffset rest k
      else some ((rest.drop (k + 1)).takeWhile (fun c => !(c = '\n')))
    | none => groupFromOffset rest k

/-- The `answer` alternative at the head. -/
def matchAnswerAlt (cs : List Char) : Option (List Char) := matchCI "answer".data cs

/-- The alternation `(?:final\s+answer|answer)` at the head. -/
def matchAnswerHead (cs : List Char) : Option (List Char) :=
  match matchCI "final".data cs with
  | some r1 =>
    let afterWs := r1.dropWhile isPySpace
    if afterWs.length = r1.length then matchAnswerAlt cs
    else
      match matchCI "answer".data afterWs with
      | some r2 => some r2
      | none => matchAnswerAlt cs
  | none => matchAnswerAlt cs

/-- `\s*[:\-]\s*(.+)` after the alternation. -/
def matchSepThenGroup (r : List Char) : Option (List Char) :=
  match r.dropWhile isPySpace with
  | c :: rest2 =>
    if c = ':' ∨ c = '-' then groupFromOffset rest2 (wsPrefixLen rest2)
    else none
  | [] => none

/-- `final_answer_pattern.search`: group 1 of the leftmost match. -/
def answerSearch : List Char → Option (List Char)
  | [] => none
  | c :: cs =>
    match matchAnswerHead (c :: cs) with
    | some r =>
      match matchSepThenGroup r with
      | some g => some g
      | none => answerSearch cs
    | none => answerSearch cs

/-! ### `format_reasoning_response` itself -/

/-- Extracted think blocks (shared_utils.py:84-92): inner texts of matched
tags, stripped, dropping blocks that are empty after stripping. -/
def extractedReasoning (content : String) : List String :=
  (scanThinkTags content.data).1.filterMap
    (fun b => if stripL b = [] then none else some (⟨stripL b⟩ : String))

/-- Content with think blocks removed and stripped (shared_utils.py:93-98). -/
def strippedThinkContent (content : String) : String :=
  ⟨stripL (scanThinkTags content.data).2⟩

/-- Combined reasoning blocks (shared_utils.py:102-110): provider-supplied
blocks first (stripped, blanks dropped; the source also drops non-string
entries), then the extracted think blocks. -/
def combinedReasoning (content : String) (reasoning_blocks : List String) : List String :=
  (reasoning_blocks.filterMap
      (fun b => if stripL b.data = [] then none else some (⟨stripL b.data⟩ : String)))
    ++ extractedReasoning content

/-- Order-preserving dedup of the combined blocks (shared_utils.py:114-119). -/
def dedupKeepFirst (l : List String) : List String :=
  l.foldl (fun acc b => if b ∈ acc then acc else acc ++ [b]) []

/-- Python `"\n".join`. -/
def joinNL : List String → String
  | [] => ""
  | [b] => b
  | b :: rest => b ++ "\n" ++ joinNL rest

/-- `reasoning_text` (shared_utils.py:112-122): the deduped blocks joined
with newlines and stripped, `none` when there are no blocks or the result
is empty. -/
def reasoningTextOpt (content : String) (reasoning_blocks : List String) : Option String :=
  if combinedReasoning content reasoning_blocks = [] then none
  else if pyStrip (joinNL (dedupKeepFirst (combinedReasoning content reasoning_blocks))) = ""
    then none
  else some (pyStrip (joinNL (dedupKeepFirst (combinedReasoning content reasoning_blocks))))

/-- Candidate from the answer-pattern match on one block
(shared_utils.py:130-134). -/
def answerCand (b : String) : String :=
  match answerSearch b.data with
  | some g => ⟨stripL g⟩
  | none => ""

/-- Candidate from the last non-empty line of one block
(shared_utils.py:136-140). -/
def lastLineCand (b : String) : String :=
  match (splitLines b.data).reverse.find? (fun ln => !(stripL ln = [])) with
  | some ln => ⟨stripL ln⟩
  | none => ""

/-- The candidate loop over the deduped blocks in reverse
(shared_utils.py:129-142): answer pattern first, then the block's last
non-empty line, then the next-earlier block. -/
def findCandidate : List String → String
  | [] => ""
  | block :: rest =>
    if ¬ answerCand block = "" then answerCand block
    else if ¬ lastLineCand block = "" then lastLineCand block
    else findCandidate rest

/-- Result of `format_reasoning_response`: a dict with `content` and
optional `reasoning` / `display` keys. -/
structure FRResult where
  content : String
  reasoning : Option String := none
  display : Option String := none
deriving DecidableEq, Repr

/-- config.py:10. -/
def SHOW_CHAIN_OF_THOUGHT_IN_CONTEXT : Bool := true

/-- Python `"\n\n".join` for the display sections. -/
def joinSections : List String → String
  | [] => ""
  | [s] => s
  | s :: rest => s ++ "\n\n" ++ joinSections rest

/-- `format_reasoning_response` (shared_utils.py:77-169). -/
def format_reasoning_response (content : String) (reasoning_blocks : List String) :
    FRResult :=
  let cleaned0 := strippedThinkContent content
  let reasoning_text := reasoningTextOpt content reasoning_blocks
  let deduped := dedupKeepFirst (combinedReasoning content reasoning_blocks)
  let cleaned :=
    match reasoning_text with
    | some rt =>
      if cleaned0 = "" then
        let cand := findCandidate deduped.reverse
        if ¬ cand = "" then cand else rt
      else cleaned0
    | none => cleaned0
  let result : FRResult := { content := cleaned, reasoning := reasoning_text }
  if SHOW_CHAIN_OF_THOUGHT_IN_CONTEXT then
    let sections :=
      (match reasoning_text with
       | some rt => ["[Chain of Thought]\n" ++ rt]
       | none => []) ++
      (if ¬ cleaned = "" then ["[Final Answer]\n" ++ cleaned] else [])
    { result with
        display := some (if sections = [] then cleaned else joinSections sections) }
  else
    if cleaned = "" then
      match reasoning_text with
      | some rt => { result with content := rt }
      | none => result
    else result

/-! ### Provider gateway: dict model and `normalize_response`
(shared_utils.py:172-221) -/

/-- A Python value stored in a response or payload dict.  `str` is the only
case whose contents the gateway inspects; `pynone` is Python `None`; `obj`
stands for any other value (list, dict, number), of which the modelled code
observes only the truthiness. -/
inductive PyVal where
  | pynone
  | str (s : String)
  | obj (isTruthy : Bool)
deriving DecidableEq, Repr

def PyVal.truthy : PyVal → Bool
  | .pynone => false
  | .str s => !(s = "")
  | .obj t => t

/-- A Python dict in insertion order. -/
abbrev Dict := List (String × PyVal)

/-- Key lookup (first binding wins; Python dicts have unique keys). -/
def dget : Dict → String → Option PyVal
  | [], _ => none
  | (k', v) :: rest, k => if k' = k then some v else dget rest k

def dhas (d : Dict) (k : String) : Bool := (dget d k).isSome

/-- Python `d.get(k, default)`. -/
def dgetD (d : Dict) (k : String) (default : PyVal) : PyVal :=
  match dget d k with
  | some v => v
  | none => default

/-- Dict assignment `d[k] = v`: replaces the binding in place, or appends a
new key at the end (insertion-order semantics). -/
def dset (d : Dict) (k : String) (v : PyVal) : Dict :=
  if dhas d k then d.map (fun kv => if kv.1 = k then (k, v) else kv)
  else d ++ [(k, v)]

/-- Python `d.setdefault(k, v)`. -/
def dsetdefault (d : Dict) (k : String) (v : PyVal) : Dict :=
  if dhas d k then d else d ++ [(k, v)]

/-- `build_error_response` (shared_utils.py:172-177); its callers always
pass a string message. -/
def build_error_response (message : String) : Dict :=
  [("role", .str "system"),
   ("content", .str (if ¬ message = "" then message else "An unknown error occurred"))]

/-- A raw provider reply as seen by `normalize_response`: `None`, a bare
string, a dict, or any other object (carrying its `str()` rendering). -/
inductive Raw where
  | rnone
  | rstr (s : String)
  | rdict (d : Dict)
  | robj (asString : String)
deriving DecidableEq, Repr

/-- Blank-string test `isinstance(content, str) and not content.strip()`. -/
def isBlankStr : PyVal → Bool
  | .str s => stripL s.data = []
  | _ => false

/-- `role = normalized.get("role", "assistant") or "assistant"`
(shared_utils.py:187), after the error-key rule at line 190-192. -/
def nrRole (d : Dict) : PyVal :=
  if dgetD d "content" .pynone = .pynone && dhas d "error" then .str "system"
  else if (dgetD d "role" (.str "assistant")).truthy then dgetD d "role" (.str "assistant")
  else .str "assistant"

/-- The content after the substitution chain (shared_utils.py:188-198):
the `error` value when content is `None` and an error key exists; then, if
content is `None` or blank, `display or reasoning` when reasoning is
truthy, or `""`. -/
def nrContent (d : Dict) : PyVal :=
  let content1 :=
    if dgetD d "content" .pynone = .pynone && dhas d "error" then dgetD d "error" .pynone
    else dgetD d "content" .pynone
  if content1 = .pynone || isBlankStr content1 then
    (if (dgetD d "reasoning" .pynone).truthy then
       (if (dgetD d "display" .pynone).truthy then dgetD d "display" .pynone
        else dgetD d "reasoning" .pynone)
     else .str "")
  else content1

/-- The bail-out test (shared_utils.py:200-203): still no usable content
and no truthy reasoning. -/
def nrBails (d : Dict) : Bool :=
  (!(nrContent d).truthy || isBlankStr (nrContent d))
    && !(dgetD d "reasoning" .pynone).truthy

/-- `normalize_response` (shared_utils.py:180-221). -/
def normalize_response : Raw → Dict
  | .rnone => build_error_response "Provider returned no response"
  | .rdict d =>
    if nrBails d then build_error_response "Provider returned no response"
    else dset (dset d "role" (nrRole d)) "content" (nrContent d)
  | .rstr s =>
    if pyStartsWith (pyLower (pyStrip s)) "error" then build_error_response (pyStrip s)
    else [("role", .str "assistant"), ("content", .str s)]
  | .robj s => [("role", .str "assistant"), ("content", .str s)]

/-! ### Provider dispatch: `PROVIDER_REGISTRY` and `invoke_provider`
(shared_utils.py:1246-1338) -/

/-- Payload fields `invoke_provider` itself reads.  The pass-through fields
(`prompt`, `context_messages`, `full_messages`, `system_prompt`, `options`,
`metadata`) reach the handlers unchanged across the fallback hop and are
absorbed into the handler environment.  `fallback_model = none` models an
unset (`None`/absent) fallback model, for which the hop keeps the original
`model_id` as `payload.get("fallback_model", payload["model_id"])` does for
a missing key. -/
structure Payload where
  model_id : String
  fallback_provider : Option String := none
  fallback_model : Option String := none
deriving DecidableEq, Repr

/-- The registry tags (shared_utils.py:1246-1279); every entry carries a
handler, so registry membership is what `invoke_provider` dispatches on.
The `supports_reasoning` flags are not read by the modelled control flow. -/
def PROVIDER_REGISTRY : List String :=
  ["anthropic", "bedrock", "openai", "deepseek", "deepseek_legacy",
   "moonshot", "bigmodel", "gemini"]

/-- Error detection on a normalized envelope (shared_utils.py:1300-1302):
role equals `"system"` and the content string starts case-insensitively
with "error".  (A non-string content would raise inside the guarded `try`
in the source; the claims only exercise string contents, and any other
value is treated as non-error here.) -/
def isErrorEnvelope (d : Dict) : Bool :=
  (dget d "role" = some (.str "system"))
    && (match dget d "content" with
        | some (.str s) => pyStartsWith (pyLower s) "error"
        | _ => false)

/-- `normalized.setdefault("provider", provider_key)`. -/
def withProviderTag (d : Dict) (k : String) : Dict :=
  dsetdefault d "provider" (.str k)

/-- The OpenRouter default path (shared_utils.py:1328-1338): record the
attempt, call the proxy, normalize, tag the provider. -/
def openrouterCall (H : String → Payload → Raw) (p : Payload) (attempted : List String) :
    Dict × List String :=
  (withProviderTag (normalize_response (H "openrouter" p)) "openrouter",
   if ¬ "openrouter" ∈ attempted then attempted ++ ["openrouter"] else attempted)

/-- `invoke_provider` (shared_utils.py:1282-1338).  `H` is the handler
environment: what each outbound call (registry handler or the OpenRouter
proxy) returns for a given payload; the source's defensive `except` paths
for raising handlers are outside this total model.  `attempted` is the
payload's `attempted_providers` list, shared by reference across the
recursive fallback call and threaded here as explicit state.  `fuel` merely
bounds the recursion: the fallback key joins `attempted` before the hop and
the hop re-checks membership, so the depth never exceeds two and any fuel
of at least 2 reproduces the source exactly. -/
def invoke_provider (H : String → Payload → Raw) :
    Nat → Option String → Payload → List String → Dict × List String
  | 0, _, _, attempted => (build_error_response "recursion fuel exhausted", attempted)
  | fuel + 1, provider_name, p, attempted0 =>
    let provider_key : Option String :=
      match provider_name with
      | some s => if ¬ s = "" then some (pyLower s) else none
      | none => none
    let attempted1 :=
      match provider_key with
      | some k => if ¬ k ∈ attempted0 then attempted0 ++ [k] else attempted0
      | none => attempted0
    match provider_key with
    | some k =>
      if k ∈ PROVIDER_REGISTRY then
        let normalized := withProviderTag (normalize_response (H k p)) k
        match p.fallback_provider with
        | some fb =>
          if isErrorEnvelope normalized then
            if ¬ pyLower fb ∈ attempted1 then
              invoke_provider H fuel (some (pyLower fb))
                { p with model_id := p.fallback_model.getD p.model_id } attempted1
            else (normalized, attempted1)
          else (normalized, attempted1)
        | none => (normalized, attempted1)
      else if k = "deepseek" then
        if "deepseek_legacy" ∈ PROVIDER_REGISTRY ∧ ¬ "deepseek_legacy" ∈ attempted1 then
          (withProviderTag (normalize_response (H "deepseek_legacy" p)) "deepseek_legacy",
           attempted1 ++ ["deepseek_legacy"])
        else openrouterCall H p attempted1
      else openrouterCall H p attempted1
    | none => openrouterCall H p attempted1

/-- C9 counterexample: "deepseek" has a registry entry, so an erroring
deepseek call with no explicit `fallback_provider` returns the error
envelope directly; `deepseek_legacy` is never attempted and the envelope's
provider is "deepseek", refuting the built-in legacy hop. -/
def deepseekErrH : String → Payload → Raw := fun _ _ => .rstr "Error: outage"

/-- Concrete handler environment for the fallback witness: the primary
always errors, the fallback succeeds. -/
def fallbackDemoH : String → Payload → Raw
  | "anthropic", _ => .rstr "Error: primary down"
  | "openai", _ => .rstr "fallback says hi"
  | _, _ => .rstr "unused"

def fallbackDemoP : Payload := ⟨"model-a", some "openai", some "model-b"⟩

/-! ### Theorems -/

/-! ### Basic lemmas about the string primitives -/

theorem containsL_iff_findL (needle : List Char) :
    ∀ hay : List Char, containsL needle hay = true ↔ (findL needle hay).isSome := by
  intro hay
  induction hay with
  | nil =>
    by_cases he : needle.isEmpty <;> simp [containsL, findL, he]
  | cons c rest ih =>
    by_cases hp : needle.isPrefixOf (c :: rest)
    · simp [containsL, findL, hp]
    · cases hfr : findL needle rest <;>
        simp [containsL, findL, hp, ih, hfr]

theorem findL_sound (needle : List Char) :
    ∀ (hay : List Char) (p : Nat), findL needle hay = some p →
      needle.isPrefixOf (hay.drop p) = true := by
  intro hay
  induction hay with
  | nil =>
    intro p h
    simp only [findL] at h
    split at h
    · rename_i he
      cases h
      have hne : needle = [] := by simpa [List.isEmpty_iff] using he
      subst hne
      simp [List.isPrefixOf]
    · simp at h
  | cons c rest ih =>
    intro p h
    simp only [findL] at h
    split at h
    · rename_i hp
      cases h
      simpa using hp
    · cases hfr : findL needle rest with
      | none => rw [hfr] at h; simp at h
      | some q =>
        rw [hfr] at h
        obtain rfl : q + 1 = p := by simpa using h
        simpa using ih q hfr

theorem findL_first (needle : List Char) :
    ∀ (hay : List Char) (p : Nat), findL needle hay = some p →
      ∀ q < p, needle.isPrefixOf (hay.drop q) = false := by
  intro hay
  induction hay with
  | nil =>
    intro p h q hq
    simp only [findL] at h
    split at h
    · cases h; omega
    · simp at h
  | cons c rest ih =>
    intro p h q hq
    simp only [findL] at h
    split at h
    · cases h; omega
    · rename_i hp
      cases hfr : findL needle rest with
      | none => rw [hfr] at h; simp at h
      | some r =>
        rw [hfr] at h
        obtain rfl : r + 1 = p := by simpa using h
        match q with
        | 0 =>
          cases hb : needle.isPrefixOf (c :: rest) with
          | false => simpa using hb
          | true => exact absurd hb hp
        | q' + 1 =>
          have hlt : q' < r := by omega
          simpa using ih r hfr q' hlt

theorem findL_take_append (needle hay : List Char) (p : Nat)
    (h : findL needle hay = some p) :
    hay.take (p + needle.length) = hay.take p ++ needle := by
  have hpre : needle <+: hay.drop p :=
    List.isPrefixOf_iff_prefix.mp (findL_sound needle hay p h)
  obtain ⟨tail, htail⟩ := hpre
  rw [List.take_add]
  congr 1
  rw [← htail]
  exact List.take_left' rfl

/-! ### Lemmas about branch creation -/

theorem countP_not_indicator_add (l : List Msg) :
    l.countP (fun m => !isBranchIndicator m) + l.countP (fun m => isBranchIndicator m)
      = l.length := by
  induction l with
  | nil => simp
  | cons m rest ih =>
    by_cases hm : isBranchIndicator m <;>
      simp [List.countP_cons, hm] <;> omega

theorem findTruncateIdxAux_spec (selected_text : String) :
    ∀ (l : List Msg) (i t : Nat), findTruncateIdxAux selected_text i l = some t →
      i ≤ t ∧ ∃ mt, l[t - i]? = some mt ∧ isTruncMatch selected_text mt = true := by
  intro l
  induction l with
  | nil => intro i t h; simp [findTruncateIdxAux] at h
  | cons a rest ih =>
    intro i t h
    simp only [findTruncateIdxAux] at h
    split at h
    · rename_i hmatch
      cases h
      refine ⟨le_refl _, a, ?_, hmatch⟩
      simp
    · obtain ⟨hle, mt, hget, hm⟩ := ih (i + 1) t h
      refine ⟨by omega, mt, ?_, hm⟩
      have hd : t - i = (t - (i + 1)) + 1 := by omega
      rw [hd]
      simpa using hget

theorem forkKeepLoop_mem (selected_text : String) (t : Nat) :
    ∀ (l : List Msg) (i : Nat) (m : Msg), m ∈ forkKeepLoop selected_text t i l →
      m.role = "system"
      ∨ (∃ j mi, l[j]? = some mi ∧ i + j < t ∧ m = mi)
      ∨ (∃ j mt, l[j]? = some mt ∧ i + j = t
          ∧ m = { mt with content := truncAt mt.content selected_text }) := by
  intro l
  induction l with
  | nil => intro i m hm; simp [forkKeepLoop] at hm
  | cons a rest ih =>
    intro i m hm
    have step :
        m ∈ forkKeepLoop selected_text t (i + 1) rest →
          m.role = "system"
          ∨ (∃ j mi, (a :: rest)[j]? = some mi ∧ i + j < t ∧ m = mi)
          ∨ (∃ j mt, (a :: rest)[j]? = some mt ∧ i + j = t
              ∧ m = { mt with content := truncAt mt.content selected_text }) := by
      intro htl
      rcases ih (i + 1) m htl with hs | ⟨j, mi, hj, hlt, hmeq⟩ | ⟨j, mt, hj, heq, hme⟩
      · exact Or.inl hs
      · exact Or.inr (Or.inl ⟨j + 1, mi, by simpa using hj, by omega, hmeq⟩)
      · exact Or.inr (Or.inr ⟨j + 1, mt, by simpa using hj, by omega, hme⟩)
    simp only [forkKeepLoop] at hm
    split at hm
    · rename_i hsys
      rcases List.mem_cons.mp hm with rfl | hm'
      · left
        have := (Bool.and_eq_true _ _).mp hsys
        simpa using this.1
      · exact step hm'
    · split at hm
      · rename_i hle
        rcases List.mem_cons.mp hm with rfl | hm'
        · by_cases hit : i = t
          · subst hit
            right; right
            exact ⟨0, a, by simp, by omega, by simp⟩
          · right; left
            refine ⟨0, a, by simp, by omega, ?_⟩
            simp [hit]
        · exact step hm'
      · exact step hm

theorem forkKeepLoop_trunc_mem (selected_text : String) (t : Nat) :
    ∀ (l : List Msg) (i : Nat) (mt : Msg), i ≤ t → l[t - i]? = some mt →
      ¬ mt.role = "system" →
      ({ mt with content := truncAt mt.content selected_text }
        ∈ forkKeepLoop selected_text t i l) := by
  intro l
  induction l with
  | nil => intro i mt _ hget _; simp at hget
  | cons a rest ih =>
    intro i mt hle hget hrole
    by_cases hit : i = t
    · subst hit
      rw [show i - i = 0 by omega] at hget
      have ha : a = mt := by simpa using hget
      subst ha
      have hsys : ¬ ((a.role = "system" && !isBranchIndicator a) = true) := by
        simp [hrole]
      simp only [forkKeepLoop]
      rw [if_neg hsys, if_pos (le_refl i)]
      simp
    · have hd : t - i = (t - (i + 1)) + 1 := by omega
      rw [hd] at hget
      simp only [List.getElem?_cons_succ] at hget
      have htail := ih (i + 1) mt (by omega) hget hrole
      simp only [forkKeepLoop]
      by_cases hsys : (a.role = "system" && !isBranchIndicator a) = true
      · rw [if_pos hsys]
        exact List.mem_cons_of_mem _ htail
      · rw [if_neg hsys]
        by_cases hle2 : i ≤ t
        · rw [if_pos hle2]
          exact List.mem_cons_of_mem _ htail
        · rw [if_neg hle2]
          exact htail

/-- C5 counterexample: for a parent transcript that itself contains a branch
indicator (as every branch transcript does), `rabbithole_callback` does not
keep every parent message: the parent's own indicator is dropped, refuting
the claim that every parent message is present unmodified. -/
theorem rabbithole_claim_counterexample :
    ¬ (([rabbitholeIndicator "A"] : List Msg).length
          ≤ (rabbitholeBranchConversation [rabbitholeIndicator "A"] "B").length
        ∧ ∀ m ∈ ([rabbitholeIndicator "A"] : List Msg),
            m ∈ rabbitholeBranchConversation [rabbitholeIndicator "A"] "B") := by
  intro h
  have hmem := h.2 (rabbitholeIndicator "A") (by simp)
  simp [rabbitholeBranchConversation, rabbitholeIndicator, isBranchIndicator] at hmem

/-- C5 (amended): `rabbithole_callback` copies every non-indicator parent
message unmodified and in order (the copied prefix is literally the parent
with indicators filtered out), appends exactly one branch indicator last,
and — whenever the parent holds at most one indicator, which is true of the
main transcript and of every branch transcript the app creates — the branch
transcript is at least as long as the parent's. -/
theorem rabbithole_inheritance (parent : List Msg) (selected_text : String)
    (h : parent.countP (fun m => isBranchIndicator m) ≤ 1) :
    parent.length ≤ (rabbitholeBranchConversation parent selected_text).length
    ∧ (∀ m ∈ parent, isBranchIndicator m = false →
        m ∈ rabbitholeBranchConversation parent selected_text)
    ∧ parent.filter (fun m => !isBranchIndicator m)
        <+: rabbitholeBranchConversation parent selected_text
    ∧ (rabbitholeBranchConversation parent selected_text).getLast?
        = some (rabbitholeIndicator selected_text) := by
  unfold rabbitholeBranchConversation
  refine ⟨?_, ?_, ⟨[rabbitholeIndicator selected_text], rfl⟩, List.getLast?_concat _⟩
  · have hlen : (parent.filter (fun m => !isBranchIndicator m)).length
        = parent.countP (fun m => !isBranchIndicator m) :=
      (List.countP_eq_length_filter _ _).symm
    have hsum := countP_not_indicator_add parent
    simp only [List.length_append, List.length_singleton, hlen]
    omega
  · intro m hm hnot
    exact List.mem_append_left _ (List.mem_filter.mpr ⟨hm, by simp [hnot]⟩)

/-- Witness for `rabbithole_inheritance` at a concrete one-message parent. -/
theorem rabbithole_inheritance_witness :
    ([⟨"user", "hi", none, false, none⟩] : List Msg).length
      ≤ (rabbitholeBranchConversation [⟨"user", "hi", none, false, none⟩] "x").length :=
  (rabbithole_inheritance [⟨"user", "hi", none, false, none⟩] "x" (by decide)).1

/-- C1: fork truncation.  When the selected text occurs in some user- or
assistant-role parent message, the fork branch ends with the fork indicator;
the first matching message appears with its content truncated to end exactly
at the end of the first occurrence of the selected text; and every other
entry of the branch is either a system-role message or a parent message from
strictly before the match, so no non-system message after the match
survives. -/
theorem fork_truncation (parent : List Msg) (selected_text : String) (t : Nat)
    (ht : findTruncateIdx parent selected_text = some t) :
    (forkBranchConversation parent selected_text).getLast?
        = some (forkIndicator selected_text)
    ∧ (∃ mt p, parent[t]? = some mt
        ∧ (mt.role = "user" ∨ mt.role = "assistant")
        ∧ findL selected_text.data mt.content.data = some p
        ∧ ({ mt with content := truncAt mt.content selected_text }
              ∈ forkBranchConversation parent selected_text)
        ∧ (truncAt mt.content selected_text).data
              = mt.content.data.take p ++ selected_text.data
        ∧ (∀ q < p, selected_text.data.isPrefixOf (mt.content.data.drop q) = false))
    ∧ (∀ m ∈ forkBranchConversation parent selected_text,
        m = forkIndicator selected_text
        ∨ m.role = "system"
        ∨ (∃ i mi, parent[i]? = some mi ∧ i < t ∧ m = mi)
        ∨ (∃ mt, parent[t]? = some mt
            ∧ m = { mt with content := truncAt mt.content selected_text })) := by
  have hspec := findTruncateIdxAux_spec selected_text parent 0 t ht
  obtain ⟨-, mt, hget, hmatch⟩ := hspec
  rw [Nat.sub_zero] at hget
  have hrole : mt.role = "user" ∨ mt.role = "assistant" := by
    have := (Bool.and_eq_true _ _).mp hmatch
    have h1 := this.1
    rcases (Bool.or_eq_true _ _).mp h1 with h | h
    · exact Or.inl (by simpa using h)
    · exact Or.inr (by simpa using h)
  have hcontains : containsL selected_text.data mt.content.data = true := by
    have := (Bool.and_eq_true _ _).mp hmatch
    simpa [containsSub] using this.2
  obtain ⟨p, hp⟩ : ∃ p, findL selected_text.data mt.content.data = some p := by
    have := (containsL_iff_findL selected_text.data mt.content.data).mp hcontains
    exact Option.isSome_iff_exists.mp this
  have hnotsys : ¬ mt.role = "system" := by
    rcases hrole with h | h <;> simp [h]
  unfold forkBranchConversation
  rw [ht]
  refine ⟨List.getLast?_concat _, ⟨mt, p, hget, hrole, hp, ?_, ?_, ?_⟩, ?_⟩
  · exact List.mem_append_left _
      (forkKeepLoop_trunc_mem selected_text t parent 0 mt (Nat.zero_le t) hget hnotsys)
  · simp only [truncAt, hp]
    simpa using findL_take_append selected_text.data mt.content.data p hp
  · exact fun q hq => findL_first selected_text.data mt.content.data p hp q hq
  · intro m hm
    rcases List.mem_append.mp hm with hin | hind
    · rcases forkKeepLoop_mem selected_text t parent 0 m hin with
        hs | ⟨j, mi, hj, hlt, hmeq⟩ | ⟨j, mt', hj, heq, hme⟩
      · exact Or.inr (Or.inl hs)
      · exact Or.inr (Or.inr (Or.inl ⟨j, mi, hj, by omega, hmeq⟩))
      · refine Or.inr (Or.inr (Or.inr ⟨mt', ?_, hme⟩))
        have : j = t := by omega
        subst this
        exact hj
    · left
      simpa using hind

/-- Witness for `fork_truncation`: the spec's own example — a parent message
`"the sky is blue and vast"` forked at `"is blue"` — produces a branch
ending with the indicator. -/
theorem fork_truncation_witness :
    (forkBranchConversation
        [⟨"assistant", "the sky is blue and vast", some "AI-1", false, none⟩,
         ⟨"assistant", "and vast it is", some "AI-2", false, none⟩]
        "is blue").getLast? = some (forkIndicator "is blue") :=
  (fork_truncation
      [⟨"assistant", "the sky is blue and vast", some "AI-1", false, none⟩,
       ⟨"assistant", "and vast it is", some "AI-2", false, none⟩]
      "is blue" 0 (by decide)).1

/-- C3: trailing-role invariant.  For every conversation, speaking AI and
system prompt, the assembled message list never ends with an
assistant-role entry: if the history would end on the speaker's own prior
turn, a synthetic user message is appended first (main.py:266-300). -/
theorem trailing_role_invariant (ai_name : String) (conv : List Msg) (sp : String) :
    ¬ ((assembleMessages ai_name conv sp).getLast?.map SimpleMsg.role = some "assistant") := by
  unfold assembleMessages
  intro h
  split at h
  · rw [List.getLast?_concat] at h
    simp at h
  · rename_i hc
    apply hc
    refine ⟨?_, h⟩
    cases hh : assembledHistory ai_name conv with
    | nil => simp [assembleBase, hh] at h
    | cons a l => simp [assembleBase, hh]

/-- The filtering loop preserves pairwise-distinct contents. -/
theorem filterStep_pairwise :
    ∀ (conv : List Msg) (acc : List Msg),
      acc.Pairwise (fun a b => ¬ a.content = b.content) →
      (conv.foldl filterStep acc).Pairwise (fun a b => ¬ a.content = b.content) := by
  intro conv
  induction conv with
  | nil => intro acc h; exact h
  | cons m rest ih =>
    intro acc h
    simp only [List.foldl_cons]
    apply ih
    unfold filterStep
    split
    · exact h
    · split
      · exact h
      · split
        · exact h
        · split
          · exact h
          · rename_i hdup
            rw [List.pairwise_append]
            refine ⟨h, by simp, ?_⟩
            intro a ha b hb
            have hb' : b = m := by simpa using hb
            subst hb'
            have := (List.any_eq_false).mp (Bool.not_eq_true _ ▸ hdup) a ha
            simpa using this

/-- C4 (amended): the transcript-derived portion of the assembled message
list is deduplicated — no two entries produced from the stored conversation
share identical content.  (The synthetic trailing user message is excluded:
it deliberately re-sends the other speaker's latest content, see
`dedup_claim_counterexample`.) -/
theorem dedup_amended (ai_name : String) (conv : List Msg) :
    ((assembledHistory ai_name conv).map SimpleMsg.content).Pairwise (· ≠ ·) := by
  unfold assembledHistory
  rw [List.map_map, List.pairwise_map]
  have := filterStep_pairwise conv [] (by simp)
  exact this.imp (fun hab => hab)

/-- C4 counterexample: the assembled message list handed to the provider
contains the content "hi" twice — once from the transcript and once as the
synthetic trailing user message — so it is not duplicate-free. -/
theorem dedup_claim_counterexample :
    ¬ ((assembleMessages "AI-1" dedupCexConv "persona").map SimpleMsg.content).Nodup := by
  decide

/-- C6: on a fresh fork branch `ai_turn` computes the fork override prompt
(main.py:189-191), but main.py:201 resets `system_prompt` to the
pre-override value, so the payload and the outgoing system message carry
the configured persona prompt; moreover `process_branch_input` hands fork
branches the standard persona prompts in the first place, so no code path
delivers the fork override to a provider. -/
theorem fork_override_discarded :
    overrideSystemPrompt forkBugConv "PERSONA PROMPT"
        = "The conversation forks from'x'. Continue naturally from this point."
    ∧ aiTurnSystemPrompt forkBugConv "PERSONA PROMPT" = "PERSONA PROMPT"
    ∧ processBranchPrompts "fork" "x" "PERSONA PROMPT" "PERSONA PROMPT" forkBugConv
        = ("PERSONA PROMPT", "PERSONA PROMPT")
    ∧ (assembleMessages "AI-1" forkBugConv "PERSONA PROMPT").head?
        = some ⟨"system", "PERSONA PROMPT"⟩
    ∧ (∀ (conv : List Msg) (sp : String), aiTurnSystemPrompt conv sp = sp) :=
  ⟨by decide, by decide, by decide, by decide, fun _ _ => rfl⟩

/-- C7: reasoning stripping round-trip.  `"<think>plan</think>final text"`
normalises to content `"final text"` with reasoning `"plan"`, and running
the normaliser again on the produced content changes nothing — no further
stripping occurs and no reasoning is extracted. -/
theorem reasoning_round_trip :
    (format_reasoning_response "<think>plan</think>final text" []).content = "final text"
    ∧ (format_reasoning_response "<think>plan</think>final text" []).reasoning = some "plan"
    ∧ (format_reasoning_response "final text" []).content = "final text"
    ∧ (format_reasoning_response "final text" []).reasoning = none := by
  decide

/-! ### Lemmas for the empty-content fallback (C8) -/

theorem dropWhile_forall (p : Char → Bool) :
    ∀ cs : List Char, (∀ x ∈ cs.dropWhile p, p x) ↔ (∀ x ∈ cs, p x) := by
  intro cs
  induction cs with
  | nil => simp
  | cons c cs ih =>
    by_cases h : p c
    · simp only [List.dropWhile_cons, h, if_pos, ih]
      constructor
      · intro hall x hx
        rcases List.mem_cons.mp hx with rfl | hx'
        · exact h
        · exact hall x hx'
      · intro hall x hx
        exact hall x (List.mem_cons_of_mem _ hx)
    · simp [List.dropWhile_cons, h]

theorem stripL_eq_nil_iff (cs : List Char) :
    stripL cs = [] ↔ ∀ x ∈ cs, isPySpace x := by
  unfold stripL
  rw [List.reverse_eq_nil_iff, List.dropWhile_eq_nil_iff]
  constructor
  · intro h x hx
    exact (dropWhile_forall isPySpace cs).mp (fun y hy => h y (List.mem_reverse.mpr hy)) x hx
  · intro h x hx
    exact (dropWhile_forall isPySpace cs).mpr h x (List.mem_reverse.mp hx)

theorem mem_dropWhile_of_not (p : Char → Bool) (c : Char) (hc : p c = false) :
    ∀ cs : List Char, c ∈ cs → c ∈ cs.dropWhile p := by
  intro cs
  induction cs with
  | nil => simp
  | cons a rest ih =>
    intro hmem
    by_cases ha : p a
    · rw [List.dropWhile_cons, if_pos ha]
      rcases List.mem_cons.mp hmem with rfl | hm
      · rw [hc] at ha; cases ha
      · exact ih hm
    · rw [List.dropWhile_cons, if_neg ha]
      exact hmem

theorem mem_stripL (c : Char) (hc : isPySpace c = false) (cs : List Char) (hm : c ∈ cs) :
    c ∈ stripL cs := by
  unfold stripL
  rw [List.mem_reverse]
  apply mem_dropWhile_of_not _ _ hc
  rw [List.mem_reverse]
  exact mem_dropWhile_of_not _ _ hc _ hm

/-- A block that survived stripping still contains a non-space character. -/
theorem stripped_block_nonspace (l : List Char) (hne : ¬ stripL l = []) :
    ∃ c ∈ stripL l, isPySpace c = false := by
  have hnot : ¬ (∀ x ∈ l, isPySpace x = true) := fun hall =>
    hne ((stripL_eq_nil_iff l).mpr hall)
  push_neg at hnot
  obtain ⟨c, hcl, hns⟩ := hnot
  have hns' : isPySpace c = false := by simpa using hns
  exact ⟨c, mem_stripL c hns' l hcl, hns'⟩

/-- Every combined reasoning block carries a non-space character: both
sources of blocks are stripped and filtered non-empty. -/
theorem combined_mem_nonspace (content : String) (blocks : List String) :
    ∀ b ∈ combinedReasoning content blocks, ∃ c ∈ b.data, isPySpace c = false := by
  intro b hb
  unfold combinedReasoning at hb
  rcases List.mem_append.mp hb with h | h
  · obtain ⟨x, _, hfx⟩ := List.mem_filterMap.mp h
    split at hfx
    · cases hfx
    · rename_i hne
      cases hfx
      exact stripped_block_nonspace x.data hne
  · unfold extractedReasoning at h
    obtain ⟨x, _, hfx⟩ := List.mem_filterMap.mp h
    split at hfx
    · cases hfx
    · rename_i hne
      cases hfx
      exact stripped_block_nonspace x hne

theorem dedup_aux_sub (l : List String) :
    ∀ (acc : List String) (b : String),
      b ∈ l.foldl (fun acc b => if b ∈ acc then acc else acc ++ [b]) acc →
      b ∈ acc ∨ b ∈ l := by
  induction l with
  | nil => intro acc b hb; exact Or.inl hb
  | cons x rest ih =>
    intro acc b hb
    simp only [List.foldl_cons] at hb
    rcases ih _ b hb with h | h
    · split at h
      · exact Or.inl h
      · rcases List.mem_append.mp h with h' | h'
        · exact Or.inl h'
        · right
          have : b = x := by simpa using h'
          simp [this]
    · exact Or.inr (List.mem_cons_of_mem _ h)

theorem dedupKeepFirst_sub (l : List String) (b : String) (hb : b ∈ dedupKeepFirst l) :
    b ∈ l := by
  rcases dedup_aux_sub l [] b hb with h | h
  · simp at h
  · exact h

theorem dedup_aux_ne (l : List String) :
    ∀ acc, ¬ acc = [] →
      ¬ l.foldl (fun acc b => if b ∈ acc then acc else acc ++ [b]) acc = [] := by
  induction l with
  | nil => intro acc h; exact h
  | cons x rest ih =>
    intro acc h
    simp only [List.foldl_cons]
    apply ih
    split
    · exact h
    · simp

theorem dedupKeepFirst_ne_nil (l : List String) (h : ¬ l = []) :
    ¬ dedupKeepFirst l = [] := by
  cases l with
  | nil => exact absurd rfl h
  | cons x rest =>
    unfold dedupKeepFirst
    simp only [List.foldl_cons]
    apply dedup_aux_ne
    simp

theorem mem_joinNL (blocks : List String) (b : String) (hb : b ∈ blocks)
    (c : Char) (hc : c ∈ b.data) : c ∈ (joinNL blocks).data := by
  induction blocks with
  | nil => simp at hb
  | cons x rest ih =>
    cases rest with
    | nil =>
      have : b = x := by simpa using hb
      subst this
      simpa [joinNL] using hc
    | cons y t =>
      have hjoin : joinNL (x :: y :: t) = x ++ "\n" ++ joinNL (y :: t) := rfl
      rw [hjoin, String.data_append, String.data_append]
      rcases List.mem_cons.mp hb with rfl | hb'
      · exact List.mem_append_left _ (List.mem_append_left _ hc)
      · exact List.mem_append_right _ (ih hb')

/-- When any reasoning block exists, the joined-and-stripped reasoning text
is a non-empty string. -/
theorem reasoningTextOpt_some (content : String) (blocks : List String)
    (hr : ¬ combinedReasoning content blocks = []) :
    ∃ rt, reasoningTextOpt content blocks = some rt ∧ ¬ rt = "" := by
  have hdne : ¬ dedupKeepFirst (combinedReasoning content blocks) = [] :=
    dedupKeepFirst_ne_nil _ hr
  obtain ⟨b0, hb0⟩ := List.exists_mem_of_ne_nil _ hdne
  obtain ⟨ch, hch, hns⟩ :=
    combined_mem_nonspace content blocks b0 (dedupKeepFirst_sub _ _ hb0)
  have hmem : ch ∈ (joinNL (dedupKeepFirst (combinedReasoning content blocks))).data :=
    mem_joinNL _ _ hb0 _ hch
  have hstrip :
      ¬ pyStrip (joinNL (dedupKeepFirst (combinedReasoning content blocks))) = "" := by
    intro hs
    have hdata : stripL (joinNL (dedupKeepFirst (combinedReasoning content blocks))).data
        = [] := congrArg String.data hs
    have hall := (stripL_eq_nil_iff _).mp hdata
    rw [hall ch hmem] at hns
    cases hns
  refine ⟨pyStrip (joinNL (dedupKeepFirst (combinedReasoning content blocks))), ?_, hstrip⟩
  unfold reasoningTextOpt
  rw [if_neg hr, if_neg hstrip]

/-- C8: empty-content fallback.  When think-tag stripping leaves empty
content but reasoning blocks exist, the normaliser never returns empty
content, and the replacement is chosen with the source's priority: the
answer-pattern candidate of the last deduped reasoning block, then that
block's last non-empty line, and — if the whole candidate scan fails — the
full joined reasoning text. -/
theorem reasoning_fallback (content : String) (blocks : List String)
    (hc : strippedThinkContent content = "")
    (hr : ¬ combinedReasoning content blocks = []) :
    ¬ (format_reasoning_response content blocks).content = ""
    ∧ (∀ lb, (dedupKeepFirst (combinedReasoning content blocks)).getLast? = some lb →
        ¬ answerCand lb = "" →
        (format_reasoning_response content blocks).content = answerCand lb)
    ∧ (∀ lb, (dedupKeepFirst (combinedReasoning content blocks)).getLast? = some lb →
        answerCand lb = "" → ¬ lastLineCand lb = "" →
        (format_reasoning_response content blocks).content = lastLineCand lb)
    ∧ (findCandidate (dedupKeepFirst (combinedReasoning content blocks)).reverse = "" →
        ∀ rt, reasoningTextOpt content blocks = some rt →
          (format_reasoning_response content blocks).content = rt) := by
  obtain ⟨rt, hrt, hrtne⟩ := reasoningTextOpt_some content blocks hr
  have hcontent : (format_reasoning_response content blocks).content
      = (if ¬ findCandidate (dedupKeepFirst (combinedReasoning content blocks)).reverse = ""
         then findCandidate (dedupKeepFirst (combinedReasoning content blocks)).reverse
         else rt) := by
    unfold format_reasoning_response
    rw [hrt, hc]
    simp [SHOW_CHAIN_OF_THOUGHT_IN_CONTEXT]
  refine ⟨?_, ?_, ?_, ?_⟩
  · rw [hcontent]
    split
    · rename_i hcand
      exact hcand
    · exact hrtne
  · intro lb hlb hac
    cases hrev : (dedupKeepFirst (combinedReasoning content blocks)).reverse with
    | nil =>
      rw [← List.head?_reverse, hrev] at hlb
      cases hlb
    | cons a tl =>
      have ha : a = lb := by
        rw [← List.head?_reverse, hrev] at hlb
        simpa using hlb
      subst ha
      have hfc : findCandidate (dedupKeepFirst (combinedReasoning content blocks)).reverse
          = answerCand a := by
        rw [hrev]
        unfold findCandidate
        rw [if_pos hac]
      rw [hcontent, hfc, if_pos hac]
  · intro lb hlb hac hll
    cases hrev : (dedupKeepFirst (combinedReasoning content blocks)).reverse with
    | nil =>
      rw [← List.head?_reverse, hrev] at hlb
      cases hlb
    | cons a tl =>
      have ha : a = lb := by
        rw [← List.head?_reverse, hrev] at hlb
        simpa using hlb
      subst ha
      have hfc : findCandidate (dedupKeepFirst (combinedReasoning content blocks)).reverse
          = lastLineCand a := by
        rw [hrev]
        unfold findCandidate
        rw [if_neg (by simpa using hac), if_pos hll]
      rw [hcontent, hfc, if_pos hll]
  · intro hnone rt' hrt'
    have hrteq : rt' = rt := by
      rw [hrt] at hrt'
      exact (Option.some.inj hrt').symm
    subst hrteq
    rw [hcontent, if_neg (by simpa using hnone)]

/-- Witness for `reasoning_fallback`: a response that is a bare think block
still yields non-empty content. -/
theorem reasoning_fallback_witness :
    ¬ (format_reasoning_response "<think>stuff\nAnswer: 42</think>" []).content = "" :=
  (reasoning_fallback "<think>stuff\nAnswer: 42</think>" [] (by decide) (by decide)).1

/-! ### Dict lemmas -/

theorem dget_cons (a : String) (b : PyVal) (t : Dict) (k : String) :
    dget ((a, b) :: t) k = if a = k then some b else dget t k := rfl

theorem dget_map_set_ne (k k' : String) (v : PyVal) (hne : ¬ k = k') :
    ∀ d : Dict, dget (d.map (fun kv => if kv.1 = k' then (k', v) else kv)) k = dget d k := by
  intro d
  induction d with
  | nil => rfl
  | cons kv rest ih =>
    obtain ⟨k0, v0⟩ := kv
    simp only [List.map_cons]
    by_cases h0 : k0 = k'
    · rw [if_pos (show (k0, v0).1 = k' from h0)]
      rw [dget_cons, dget_cons]
      have h1 : ¬ k' = k := fun h => hne h.symm
      rw [if_neg h1, if_neg (fun h => h1 (h0.symm.trans h))]
      exact ih
    · rw [if_neg (show ¬ (k0, v0).1 = k' from h0)]
      rw [dget_cons, dget_cons]
      by_cases hk : k0 = k
      · rw [if_pos hk, if_pos hk]
      · rw [if_neg hk, if_neg hk]
        exact ih

theorem dget_append_ne (k k' : String) (v : PyVal) (hne : ¬ k = k') :
    ∀ d : Dict, dget (d ++ [(k', v)]) k = dget d k := by
  intro d
  induction d with
  | nil =>
    show dget [(k', v)] k = none
    rw [dget_cons, if_neg (fun h => hne h.symm)]
    rfl
  | cons kv rest ih =>
    obtain ⟨k0, v0⟩ := kv
    rw [List.cons_append, dget_cons, dget_cons]
    by_cases hk : k0 = k
    · rw [if_pos hk, if_pos hk]
    · rw [if_neg hk, if_neg hk]
      exact ih

theorem dget_dset_ne (d : Dict) (k k' : String) (v : PyVal) (hne : ¬ k = k') :
    dget (dset d k' v) k = dget d k := by
  unfold dset
  split
  · exact dget_map_set_ne k k' v hne d
  · exact dget_append_ne k k' v hne d

theorem dget_append (d1 d2 : Dict) (k : String) :
    dget (d1 ++ d2) k = if (dget d1 k).isSome then dget d1 k else dget d2 k := by
  induction d1 with
  | nil => simp [dget]
  | cons kv rest ih =>
    obtain ⟨k0, v0⟩ := kv
    rw [List.cons_append, dget_cons, dget_cons]
    by_cases hk : k0 = k
    · rw [if_pos hk, if_pos hk]
      simp
    · rw [if_neg hk, if_neg hk]
      exact ih

/-- C10 counterexample: a dict with neither usable content nor reasoning is
replaced wholesale by the two-key error envelope, so its other keys — here
`provider` — are not preserved. -/
theorem normalize_frame_counterexample :
    ¬ (dget (normalize_response (.rdict [("provider", .str "openai")])) "provider"
        = dget [("provider", PyVal.str "openai")] "provider") := by
  decide

/-- C10 (amended): whenever `normalize_response` does not bail out to the
bare error envelope — i.e. unless the final content is empty or blank with
no truthy reasoning — every key other than `role` and `content` keeps its
original value in the normalized dict. -/
theorem normalize_frame (d : Dict) (k : String) (hb : nrBails d = false)
    (hk1 : ¬ k = "role") (hk2 : ¬ k = "content") :
    dget (normalize_response (.rdict d)) k = dget d k := by
  have hnorm : normalize_response (.rdict d)
      = dset (dset d "role" (nrRole d)) "content" (nrContent d) := by
    simp only [normalize_response]
    rw [if_neg (by simp [hb])]
  rw [hnorm, dget_dset_ne _ _ _ _ hk2, dget_dset_ne _ _ _ _ hk1]

/-- Witness for `normalize_frame`: a successful reply keeps its metadata. -/
theorem normalize_frame_witness :
    dget (normalize_response (.rdict [("content", .str "hi"), ("metadata", .obj true)]))
        "metadata"
      = dget [("content", PyVal.str "hi"), ("metadata", PyVal.obj true)] "metadata" :=
  normalize_frame [("content", .str "hi"), ("metadata", .obj true)] "metadata"
    (by decide) (by decide) (by decide)

/-- Registry tags are lowercase and non-empty. -/
theorem registry_lower (k : String) (hk : k ∈ PROVIDER_REGISTRY) :
    pyLower k = k ∧ ¬ k = "" := by
  simp only [PROVIDER_REGISTRY, List.mem_cons, List.not_mem_nil, or_false] at hk
  rcases hk with rfl | rfl | rfl | rfl | rfl | rfl | rfl | rfl <;> exact ⟨by decide, by decide⟩

theorem deepseek_claim_counterexample :
    isErrorEnvelope
        (invoke_provider deepseekErrH 2 (some "deepseek") ⟨"deepseek-chat", none, none⟩ []).1
      = true
    ∧ ¬ "deepseek_legacy"
        ∈ (invoke_provider deepseekErrH 2 (some "deepseek") ⟨"deepseek-chat", none, none⟩ []).2
    ∧ dget (invoke_provider deepseekErrH 2 (some "deepseek")
          ⟨"deepseek-chat", none, none⟩ []).1 "provider"
        = some (.str "deepseek") := by
  decide

/-- C9 (amended): with "deepseek" present in `PROVIDER_REGISTRY`, invoking
the "deepseek" tag with no `fallback_provider` always returns deepseek's
own normalized envelope — error or not — having attempted only "deepseek";
the hardcoded official→legacy chain (shared_utils.py:1315-1326) is
reachable only when "deepseek" is absent from the registry, so the legacy
provider requires an explicit fallback field (as the repository's own test
supplies). -/
theorem deepseek_no_builtin_legacy (H : String → Payload → Raw) (p : Payload) (fuel : Nat)
    (hnofb : p.fallback_provider = none) :
    invoke_provider H (fuel + 1) (some "deepseek") p []
      = (withProviderTag (normalize_response (H "deepseek" p)) "deepseek", ["deepseek"]) := by
  have hpl : pyLower "deepseek" = "deepseek" := by decide
  simp only [invoke_provider]
  simp [hpl, hnofb, PROVIDER_REGISTRY]

/-- Witness for `deepseek_no_builtin_legacy` at a concrete erroring
handler. -/
theorem deepseek_no_builtin_legacy_witness :
    invoke_provider deepseekErrH 2 (some "deepseek") ⟨"deepseek-chat", none, none⟩ []
      = (withProviderTag (normalize_response (deepseekErrH "deepseek"
            ⟨"deepseek-chat", none, none⟩)) "deepseek", ["deepseek"]) :=
  deepseek_no_builtin_legacy deepseekErrH ⟨"deepseek-chat", none, none⟩ 1 rfl

/-- C2: fallback single-hop.  When the primary registry provider's
normalized envelope is a system-role "error…" envelope and a different
registry fallback is configured, `invoke_provider` retries exactly once
against the fallback provider with the fallback model: the result is the
fallback's own normalized envelope (success or error alike — a second hop
is blocked because the fallback key is already in the attempted list,
which ends as exactly `[primary, fallback]`), and when the fallback's raw
reply carries no provider field the returned envelope's provider is the
fallback key. -/
theorem fallback_single_hop (H : String → Payload → Raw) (p : Payload)
    (pk fb : String) (fuel : Nat)
    (hpk : pk ∈ PROVIDER_REGISTRY)
    (hfb : p.fallback_provider = some fb)
    (hfbreg : pyLower fb ∈ PROVIDER_REGISTRY)
    (hner : ¬ pyLower fb = pk)
    (herr : isErrorEnvelope (withProviderTag (normalize_response (H pk p)) pk) = true)
    (hfuel : 2 ≤ fuel) :
    invoke_provider H fuel (some pk) p []
      = (withProviderTag
           (normalize_response
             (H (pyLower fb) { p with model_id := p.fallback_model.getD p.model_id }))
           (pyLower fb),
         [pk, pyLower fb])
    ∧ (dhas (normalize_response
          (H (pyLower fb) { p with model_id := p.fallback_model.getD p.model_id }))
          "provider" = false →
        dget (invoke_provider H fuel (some pk) p []).1 "provider"
          = some (.str (pyLower fb))) := by
  obtain ⟨hplow, hpne⟩ := registry_lower pk hpk
  obtain ⟨hflow, hfne⟩ := registry_lower (pyLower fb) hfbreg
  obtain ⟨f, rfl⟩ : ∃ f, fuel = f + 1 + 1 := ⟨fuel - 2, by omega⟩
  set p' := { p with model_id := p.fallback_model.getD p.model_id } with hp'
  have hp'fb : p'.fallback_provider = some fb := hfb
  have hstep1 : invoke_provider H (f + 1 + 1) (some pk) p []
      = invoke_provider H (f + 1) (some (pyLower fb)) p' [pk] := by
    simp only [invoke_provider]
    simp [hpne, hplow, hpk, hfb, herr, hner, hp']
  have hstep2 : invoke_provider H (f + 1) (some (pyLower fb)) p' [pk]
      = (withProviderTag (normalize_response (H (pyLower fb) p')) (pyLower fb),
         [pk, pyLower fb]) := by
    simp only [invoke_provider]
    by_cases herr2 :
        isErrorEnvelope (withProviderTag (normalize_response (H (pyLower fb) p'))
          (pyLower fb)) = true
    · simp only [hfne, hflow, hfbreg, hp'fb, herr2, hner]
      simp [hfne, hflow, hfbreg, herr2, hner]
      rw [hfb]
      simp
    · simp only [hfne, hflow, hfbreg, hp'fb, herr2, hner]
      simp [hfne, hflow, hfbreg, herr2, hner]
      rw [hfb]
  refine ⟨hstep1.trans hstep2, fun hnop => ?_⟩
  rw [hstep1.trans hstep2]
  have h1 : dget (normalize_response (H (pyLower fb) p')) "provider" = none := by
    cases hdg : dget (normalize_response (H (pyLower fb) p')) "provider" with
    | none => rfl
    | some v =>
      unfold dhas at hnop
      rw [hdg] at hnop
      simp at hnop
  show dget (withProviderTag (normalize_response (H (pyLower fb) p')) (pyLower fb)) "provider"
      = some (.str (pyLower fb))
  unfold withProviderTag dsetdefault
  rw [if_neg (by unfold dhas; rw [h1]; simp)]
  rw [dget_append, h1]
  simp [dget]

/-- Witness for `fallback_single_hop` at the concrete environment. -/
theorem fallback_single_hop_witness :
    invoke_provider fallbackDemoH 2 (some "anthropic") fallbackDemoP []
      = (withProviderTag
           (normalize_response (fallbackDemoH (pyLower "openai")
             { fallbackDemoP with
                 model_id := fallbackDemoP.fallback_model.getD fallbackDemoP.model_id }))
           (pyLower "openai"),
         ["anthropic", pyLower "openai"]) :=
  (fallback_single_hop fallbackDemoH fallbackDemoP "anthropic" "openai" 2
    (by decide) rfl (by decide) (by decide) (by decide) (by omega)).1

end LiminalBackrooms
